import Mathlib

/-!
Verification development for the arcloud utility (arcloud.py).

The ledger is the `sync` table of an SQLite database; we embed it as a
`List Row` in table order.  The SQL queries of the source are embedded as
pure functions over that list:

* `getLatestForId` embeds the query
  `SELECT id, entityType, fileId, fileName, filePath, parentFolderId
   FROM sync WHERE fileId = ? ORDER BY unixTime DESC LIMIT 1`;
  the row returned for a tied maximal `unixTime` is the first such row in
  table order (the storage engine's order is otherwise unspecified).
  A NULL query parameter matches no row, as in SQL.
* `getIdForPath`, `getFolderContent`, `performLs`, `markContentsAs`
  (with its update batch `executemany UPDATE sync SET cloudOnly = ?
  WHERE id = ?`), `performCloud`, `performLocal` and the `__main__`
  dispatch (`runAction`) follow the source line by line.

Python's unbounded recursion (`markContentsAs` on folder children, the
ancestor `while` loop of `performLocal`) is embedded with an explicit
fuel parameter; `none` models an abnormal run (nontermination cut off, or
an uncaught Python `TypeError` such as subscripting the `None` returned
by `getLatestForId`).  A run that ends in `none` never commits, so the
stored ledger is unchanged in that case.
-/

/-- One row of the `sync` table. -/
structure Row where
  id : Nat
  unixTime : Nat
  entityType : String
  fileId : String
  fileName : String
  filePath : String
  parentFolderId : Option String
  cloudOnly : Nat
deriving DecidableEq, Repr

/-- The dict produced by `rowToDict` for the columns selected by
`getLatestForId`: everything except `unixTime` and `cloudOnly`. -/
structure Entry where
  id : Nat
  entityType : String
  fileId : String
  fileName : String
  filePath : String
  parentFolderId : Option String
deriving DecidableEq, Repr

/-- Projection of a row to the selected columns. -/
def toEntry (r : Row) : Entry :=
  ⟨r.id, r.entityType, r.fileId, r.fileName, r.filePath, r.parentFolderId⟩

/-- SQL `col = ?` where the column is non-NULL and the parameter may be
NULL: a NULL parameter matches nothing. -/
def sqlEqS (q : Option String) (v : String) : Bool :=
  decide (q = some v)

/-- SQL `col = ?` where both the column and the parameter may be NULL:
the comparison is true only when both are non-NULL and equal. -/
def sqlEqO (q : Option String) (v : Option String) : Bool :=
  match q, v with
  | some a, some b => decide (a = b)
  | _, _ => false

/-- `ORDER BY unixTime DESC LIMIT 1` over a list of rows: a row of
maximal `unixTime`; among ties the first in table order. -/
def maxRow : List Row → Option Row
  | [] => none
  | r :: rs =>
    match maxRow rs with
    | none => some r
    | some m => if m.unixTime > r.unixTime then some m else some r

/-- `getLatestForId` of the source: the current-state projection of the
entity `fid`, or `none` when the entity has no row. -/
def getLatestForId (db : List Row) (fid : Option String) : Option Entry :=
  (maxRow (db.filter (fun r => sqlEqS fid r.fileId))).map toEntry

/-- `getIdForPath` of the source: scan the rows whose recorded `filePath`
equals `path` in table order and return the first whose entity's
current-state `filePath` still equals `path`.  (For each scanned row the
entity has at least that row, so the `None` branch of the inner
`getLatestForId` is unreachable, matching the source's unchecked
subscript.)  `pathCheck` is the body of the scan loop for one candidate
row. -/
def pathCheck (db : List Row) (path : String) (r : Row) : Option String :=
  match getLatestForId db (some r.fileId) with
  | none => none
  | some d => if d.filePath = path then some r.fileId else none

def getIdForPath (db : List Row) (path : String) : Option String :=
  (db.filter (fun r => decide (r.filePath = path))).findSome? (pathCheck db path)

/-- `SELECT DISTINCT` keeping the first occurrence of each value. -/
def dedupAux (seen : List String) : List String → List String
  | [] => []
  | x :: xs => if x ∈ seen then dedupAux seen xs else x :: dedupAux (x :: seen) xs

/-- Distinct values of a list, first occurrences kept, in list order. -/
def dedupFirst (l : List String) : List String := dedupAux [] l

/-- `getFolderContent` of the source: the distinct entities that ever had
`parentFolderId = folderId`, each projected to its current state and kept
only when the current `parentFolderId` still equals `folderId`.
`keepChild` is the body of its loop for one candidate identifier. -/
def keepChild (db : List Row) (folderId : Option String) (fid : String) :
    Option Entry :=
  match getLatestForId db (some fid) with
  | none => none
  | some d => if d.parentFolderId = folderId then some d else none

def getFolderContent (db : List Row) (folderId : Option String) : List Entry :=
  (dedupFirst ((db.filter (fun r => sqlEqO folderId r.parentFolderId)).map
      (fun r => r.fileId))).filterMap (keepChild db folderId)

/-- Python's `list.sort` on strings (ascending lexicographic order). -/
def sortStrings (l : List String) : List String :=
  List.insertionSort (fun a b => a ≤ b) l

/-- `performLs` of the source, with the printed lines as the result. -/
def performLs (db : List Row) (baseId : Option String) : List String :=
  let content := getFolderContent db baseId
  let files := (content.filter (fun c => decide (c.entityType = "file"))).map
    (fun c => c.fileName)
  let folders := (content.filter (fun c => decide (c.entityType = "folder"))).map
    (fun c => c.fileName)
  (sortStrings folders).map (fun nm => nm ++ "/") ++ sortStrings files

/-- One `UPDATE sync SET cloudOnly = ? WHERE id = ?` statement. -/
def update1 (db : List Row) (v : Nat) (rid : Nat) : List Row :=
  db.map (fun r => if r.id = rid then { r with cloudOnly := v } else r)

/-- `db.executemany` of the update over a batch of row ids. -/
def applyUpdates (db : List Row) (ids : List Nat) (v : Nat) : List Row :=
  ids.foldl (fun d rid => update1 d v rid) db

/-- The `for c in content` loop of `markContentsAs`: threads the ledger
state through the recursive calls on folder children (`rec` is the
recursive invocation one fuel level down) and accumulates the row ids of
file children in list order. -/
def markLoop (rec : List Row → Option String → Nat → Option (List Row))
    (value : Nat) : List Row → List Entry → Option (List Row × List Nat)
  | db, [] => some (db, [])
  | db, c :: rest =>
    if c.entityType = "file" then
      match markLoop rec value db rest with
      | none => none
      | some p => some (p.1, c.id :: p.2)
    else if c.entityType = "folder" then
      match rec db (some c.fileId) value with
      | none => none
      | some db2 => markLoop rec value db2 rest
    else
      markLoop rec value db rest

/-- `markContentsAs` of the source: collect the base folder's current row
id and the file children's row ids, recurse into folder children, then
apply the flag value to the batch.  `none` models fuel exhaustion or the
source's crash when `getLatestForId` returns `None` for the base. -/
def markContentsAs : Nat → List Row → Option String → Nat → Option (List Row)
  | 0, _, _, _ => none
  | fuel + 1, db, baseId, value =>
    match getLatestForId db baseId with
    | none => none
    | some base =>
      match markLoop (markContentsAs fuel) value db (getFolderContent db baseId) with
      | none => none
      | some p => some (applyUpdates p.1 (base.id :: p.2) value)

/-- `performCloud` of the source. -/
def performCloud (fuel : Nat) (db : List Row) (baseId : Option String) :
    Option (List Row) :=
  markContentsAs fuel db baseId 1

/-- The ancestor `while` loop of `performLocal`: follow
`parentFolderId` links, collecting each ancestor's current row id, until
`getLatestForId` finds no row (the drive root's parent is NULL). -/
def walkUp (fuel : Nat) (db : List Row) (pid : Option String) : Option (List Nat) :=
  match fuel with
  | 0 => none
  | fuel' + 1 =>
    match getLatestForId db pid with
    | none => some []
    | some d =>
      match walkUp fuel' db d.parentFolderId with
      | none => none
      | some ids => some (d.id :: ids)

/-- `performLocal` of the source: clear the subtree, then clear the
current row of every ancestor up to the drive root. -/
def performLocal (fuel : Nat) (db : List Row) (baseId : Option String) :
    Option (List Row) :=
  match markContentsAs fuel db baseId 0 with
  | none => none
  | some db1 =>
    match getLatestForId db1 baseId with
    | none => none
    | some base =>
      match walkUp fuel db1 base.parentFolderId with
      | none => none
      | some ids => some (applyUpdates db1 ids 0)

/-- The `__main__` dispatch of the source: resolve the path (the result
is used unchecked, as in the source), run the action, and commit for the
mutating actions.  The result is the printed lines and the committed
ledger; `none` models an abnormal termination, which never commits. -/
def runAction (fuel : Nat) (db : List Row) (action : String) (path : String) :
    Option (List String × List Row) :=
  if action = "ls" then some (performLs db (getIdForPath db path), db)
  else if action = "cloud" then
    (performCloud fuel db (getIdForPath db path)).map (fun db2 => ([], db2))
  else if action = "local" then
    (performLocal fuel db (getIdForPath db path)).map (fun db2 => ([], db2))
  else none

/-- The loop of `collectIds`, mirroring `markLoop` but returning the row
ids the folder children's recursive calls update (first component) and
the file children's row ids (second component), without touching the
ledger. -/
def collectLoop (rec : List Row → Option String → Option (List Nat)) :
    List Row → List Entry → Option (List Nat × List Nat)
  | _, [] => some ([], [])
  | db, c :: rest =>
    if c.entityType = "file" then
      match collectLoop rec db rest with
      | none => none
      | some p => some (p.1, c.id :: p.2)
    else if c.entityType = "folder" then
      match rec db (some c.fileId) with
      | none => none
      | some s =>
        match collectLoop rec db rest with
        | none => none
        | some p => some (s ++ p.1, p.2)
    else
      collectLoop rec db rest

/-- The set (as a list) of row ids that `markContentsAs` updates: the
subtree's folder rows and file rows reachable from `baseId`. -/
def collectIds : Nat → List Row → Option String → Option (List Nat)
  | 0, _, _ => none
  | fuel + 1, db, baseId =>
    match getLatestForId db baseId with
    | none => none
    | some base =>
      match collectLoop (collectIds fuel) db (getFolderContent db baseId) with
      | none => none
      | some p => some (p.1 ++ base.id :: p.2)

/-- Set a row's flag to `v` when its id is in `ids`. -/
def flagSet (ids : List Nat) (v : Nat) (r : Row) : Row :=
  if r.id ∈ ids then { r with cloudOnly := v } else r

/-- Batch flag update as a single map over the table. -/
def setFlags (db : List Row) (ids : List Nat) (v : Nat) : List Row :=
  db.map (flagSet ids v)

/-! ### Concrete ledgers used as witnesses

`exDb` is the four-node scenario of the specification: drive root `R`
(row id 4), folder `A` (row id 1) under `R`, file `file.txt` (row id 2)
and folder `B` (row id 3) under `A`.  `exDb1` is the same ledger with all
flags set, `exDbC` the expected result of `cloud` on `A` from `exDb`.
`movedDb` is the moved-entity scenario: one entity `E` with a superseded
row at `/x` and a current row at `/y`.  `exW` adds to a folder `P` a
child of entityType `symlink`, which is neither a file nor a folder. -/

def rowR : Row := ⟨4, 1, "folder", "R", "root", "/d", none, 0⟩

def rowA : Row := ⟨1, 2, "folder", "A", "A", "/d/A", some "R", 0⟩

def rowF : Row := ⟨2, 3, "file", "F", "file.txt", "/d/A/file.txt", some "A", 0⟩

def rowB : Row := ⟨3, 4, "folder", "B", "B", "/d/A/B", some "A", 0⟩

def exDb : List Row := [rowR, rowA, rowF, rowB]

def exDb1 : List Row :=
  [⟨4, 1, "folder", "R", "root", "/d", none, 1⟩,
   ⟨1, 2, "folder", "A", "A", "/d/A", some "R", 1⟩,
   ⟨2, 3, "file", "F", "file.txt", "/d/A/file.txt", some "A", 1⟩,
   ⟨3, 4, "folder", "B", "B", "/d/A/B", some "A", 1⟩]

def exDbC : List Row :=
  [rowR,
   ⟨1, 2, "folder", "A", "A", "/d/A", some "R", 1⟩,
   ⟨2, 3, "file", "F", "file.txt", "/d/A/file.txt", some "A", 1⟩,
   ⟨3, 4, "folder", "B", "B", "/d/A/B", some "A", 1⟩]

def movedDb : List Row :=
  [⟨1, 1, "file", "E", "x", "/x", some "R", 0⟩,
   ⟨2, 2, "file", "E", "y", "/y", some "R", 0⟩]

def rowP : Row := ⟨10, 1, "folder", "P", "p", "/p", none, 0⟩

def rowT : Row := ⟨11, 2, "file", "F1", "a.txt", "/p/a.txt", some "P", 0⟩

def rowW : Row := ⟨12, 3, "symlink", "W", "w", "/p/w", some "P", 0⟩

def exW : List Row := [rowP, rowT, rowW]

def exW2 : List Row :=
  [⟨10, 1, "folder", "P", "p", "/p", none, 1⟩,
   ⟨11, 2, "file", "F1", "a.txt", "/p/a.txt", some "P", 1⟩,
   rowW]

/-- A tied-timestamp ledger: entity `T` has two rows with the same
`unixTime` (5) but different row ids, and `tieDbRev` holds the same two
rows in the opposite table order. -/
def rowT1 : Row := ⟨1, 5, "file", "T", "t1", "/t1", some "R", 0⟩

def rowT2 : Row := ⟨2, 5, "file", "T", "t2", "/t2", some "R", 0⟩

def tieDb : List Row := [rowT1, rowT2]

def tieDbRev : List Row := [rowT2, rowT1]

/-! ### Basic lemmas about the query embeddings -/

theorem sqlEqS_true_iff (q : Option String) (v : String) :
    sqlEqS q v = true ↔ q = some v := by
  simp [sqlEqS]

theorem sqlEqO_some_iff (f : String) (v : Option String) :
    sqlEqO (some f) v = true ↔ v = some f := by
  cases v <;> simp [sqlEqO, eq_comm]

theorem maxRow_cons (r : Row) (rs : List Row) :
    maxRow (r :: rs) = match maxRow rs with
      | none => some r
      | some m => if m.unixTime > r.unixTime then some m else some r := rfl

theorem maxRow_cons_none {r : Row} {rs : List Row} (hm : maxRow rs = none) :
    maxRow (r :: rs) = some r := by
  rw [maxRow_cons, hm]

theorem maxRow_cons_some {r m : Row} {rs : List Row} (hm : maxRow rs = some m) :
    maxRow (r :: rs) = if m.unixTime > r.unixTime then some m else some r := by
  rw [maxRow_cons, hm]

theorem maxRow_ne_none (r : Row) (rs : List Row) : maxRow (r :: rs) ≠ none := by
  cases hm : maxRow rs with
  | none => rw [maxRow_cons_none hm]; simp
  | some m => rw [maxRow_cons_some hm]; split <;> simp

theorem maxRow_eq_none (l : List Row) (h : maxRow l = none) : l = [] := by
  cases l with
  | nil => rfl
  | cons r rs => exact absurd h (maxRow_ne_none r rs)

theorem maxRow_mem {l : List Row} {m : Row} (h : maxRow l = some m) : m ∈ l := by
  induction l with
  | nil => cases h
  | cons r rs ih =>
    cases hm : maxRow rs with
    | none =>
      rw [maxRow_cons_none hm] at h
      injection h with h
      simp [h]
    | some m2 =>
      rw [maxRow_cons_some hm] at h
      split at h
      · injection h with h
        subst h
        exact List.mem_cons_of_mem _ (ih hm)
      · injection h with h
        simp [h]

theorem maxRow_max {l : List Row} :
    ∀ {m : Row}, maxRow l = some m → ∀ x ∈ l, x.unixTime ≤ m.unixTime := by
  induction l with
  | nil => intro m h; cases h
  | cons r rs ih =>
    intro m h
    cases hm : maxRow rs with
    | none =>
      rw [maxRow_cons_none hm] at h
      injection h with h
      have hnil : rs = [] := maxRow_eq_none rs hm
      subst hnil
      subst h
      simp
    | some m2 =>
      rw [maxRow_cons_some hm] at h
      intro x hx
      have hle2 : ∀ y ∈ rs, y.unixTime ≤ m2.unixTime := ih hm
      rcases List.mem_cons.mp hx with rfl | hx2
      · split at h
        · next hgt =>
          injection h with h
          subst h
          omega
        · injection h with h
          subst h
          omega
      · have hy := hle2 x hx2
        split at h
        · injection h with h
          subst h
          omega
        · next hgt =>
          injection h with h
          subst h
          omega

theorem getLatestForId_none_q (db : List Row) : getLatestForId db none = none := by
  unfold getLatestForId
  have hfil : db.filter (fun r => sqlEqS none r.fileId) = [] := by
    induction db with
    | nil => rfl
    | cons r rs ih => simp [sqlEqS, ih]
  rw [hfil]
  rfl

theorem getLatestForId_some {db : List Row} {q : Option String} {e : Entry}
    (h : getLatestForId db q = some e) :
    ∃ r ∈ db, sqlEqS q r.fileId = true ∧ toEntry r = e ∧
      ∀ r2 ∈ db, sqlEqS q r2.fileId = true → r2.unixTime ≤ r.unixTime := by
  unfold getLatestForId at h
  cases hm : maxRow (db.filter fun r => sqlEqS q r.fileId) with
  | none => rw [hm] at h; cases h
  | some m =>
    rw [hm] at h
    have hmem := List.mem_filter.mp (maxRow_mem hm)
    have hmax := maxRow_max hm
    injection h with h
    refine ⟨m, hmem.1, hmem.2, h, ?_⟩
    intro r2 h2 hq
    exact hmax r2 (List.mem_filter.mpr ⟨h2, hq⟩)

theorem getLatestForId_isSome {db : List Row} {q : Option String} {r : Row}
    (hr : r ∈ db) (hq : sqlEqS q r.fileId = true) :
    ∃ e, getLatestForId db q = some e := by
  unfold getLatestForId
  cases hm : maxRow (db.filter fun r => sqlEqS q r.fileId) with
  | none =>
    have hnil := maxRow_eq_none _ hm
    have hin : r ∈ db.filter (fun r => sqlEqS q r.fileId) :=
      List.mem_filter.mpr ⟨hr, hq⟩
    rw [hnil] at hin
    cases hin
  | some m => exact ⟨toEntry m, rfl⟩

theorem getLatestForId_fileId {db : List Row} {s : String} {e : Entry}
    (h : getLatestForId db (some s) = some e) : e.fileId = s := by
  obtain ⟨r, _, hq, hte, _⟩ := getLatestForId_some h
  rw [sqlEqS_true_iff] at hq
  injection hq with hq
  rw [← hte, hq]
  rfl

theorem findSome?_eq_none_iff {α β : Type} (f : α → Option β) :
    ∀ l : List α, l.findSome? f = none ↔ ∀ a ∈ l, f a = none := by
  intro l
  induction l with
  | nil => simp [List.findSome?]
  | cons a l ih =>
    rw [List.findSome?]
    cases hf : f a with
    | none => simp [hf, ih]
    | some b => simp [hf]

theorem exists_of_findSome?_eq_some {α β : Type} {f : α → Option β} {b : β} :
    ∀ {l : List α}, l.findSome? f = some b → ∃ a ∈ l, f a = some b := by
  intro l
  induction l with
  | nil => intro h; cases h
  | cons a l ih =>
    intro h
    rw [List.findSome?] at h
    cases hf : f a with
    | none =>
      rw [hf] at h
      obtain ⟨a2, ha2, hfa2⟩ := ih h
      exact ⟨a2, List.mem_cons_of_mem _ ha2, hfa2⟩
    | some b2 =>
      rw [hf] at h
      injection h with h
      subst h
      exact ⟨a, List.mem_cons_self a l, hf⟩

theorem mem_dedupAux (x : String) :
    ∀ (l seen : List String), x ∈ dedupAux seen l ↔ (x ∈ l ∧ x ∉ seen) := by
  intro l
  induction l with
  | nil => intro seen; simp [dedupAux]
  | cons y ys ih =>
    intro seen
    rw [dedupAux]
    by_cases hy : y ∈ seen
    · rw [if_pos hy, ih]
      constructor
      · rintro ⟨h1, h2⟩
        exact ⟨List.mem_cons_of_mem _ h1, h2⟩
      · rintro ⟨h1, h2⟩
        rcases List.mem_cons.mp h1 with rfl | h1
        · exact absurd hy h2
        · exact ⟨h1, h2⟩
    · rw [if_neg hy]
      by_cases hxy : x = y
      · subst hxy
        simp [hy]
      · rw [List.mem_cons]
        simp only [hxy, false_or]
        rw [ih]
        simp [List.mem_cons, hxy]

theorem mem_dedupFirst (x : String) (l : List String) :
    x ∈ dedupFirst l ↔ x ∈ l := by
  simp [dedupFirst, mem_dedupAux]

theorem nodup_dedupAux : ∀ (l seen : List String), (dedupAux seen l).Nodup := by
  intro l
  induction l with
  | nil => intro seen; simp [dedupAux]
  | cons y ys ih =>
    intro seen
    rw [dedupAux]
    by_cases hy : y ∈ seen
    · rw [if_pos hy]
      exact ih seen
    · rw [if_neg hy]
      refine List.nodup_cons.mpr ⟨?_, ih (y :: seen)⟩
      intro hmem
      exact ((mem_dedupAux y ys (y :: seen)).mp hmem).2 (List.mem_cons_self y seen)

theorem nodup_dedupFirst (l : List String) : (dedupFirst l).Nodup :=
  nodup_dedupAux l []

theorem pathCheck_eq_none {db : List Row} {path : String} {r : Row}
    (hg : getLatestForId db (some r.fileId) = none) :
    pathCheck db path r = none := by
  unfold pathCheck
  rw [hg]

theorem pathCheck_eq_some {db : List Row} {path : String} {r : Row} {d : Entry}
    (hg : getLatestForId db (some r.fileId) = some d) :
    pathCheck db path r = if d.filePath = path then some r.fileId else none := by
  unfold pathCheck
  rw [hg]

theorem keepChild_eq_none {db : List Row} {q : Option String} {fid : String}
    (hg : getLatestForId db (some fid) = none) :
    keepChild db q fid = none := by
  unfold keepChild
  rw [hg]

theorem keepChild_eq_some {db : List Row} {q : Option String} {fid : String}
    {d : Entry} (hg : getLatestForId db (some fid) = some d) :
    keepChild db q fid = if d.parentFolderId = q then some d else none := by
  unfold keepChild
  rw [hg]

/-- Claim C1, amended: for an entity identifier with at least one event
row, `getLatestForId` returns the projection of one of the identifier's
rows of maximal timestamp; for an identifier with no rows it returns
`none`.  When several rows tie on the maximum the result is one of the
tied rows, but which one follows the storage engine's enumeration order
(the model's first-in-table-order), not a documented tie-break — see the
counterexample `tiebreak_storage_order_cex`. -/
theorem currentState_max_timestamp (db : List Row) (fid : String) :
    ((¬ ∃ r ∈ db, r.fileId = fid) → getLatestForId db (some fid) = none) ∧
    (∀ e, getLatestForId db (some fid) = some e →
      ∃ r ∈ db, r.fileId = fid ∧ e = toEntry r ∧
        ∀ r2 ∈ db, r2.fileId = fid → r2.unixTime ≤ r.unixTime) ∧
    ((∃ r ∈ db, r.fileId = fid) → ∃ e, getLatestForId db (some fid) = some e) := by
  refine ⟨?_, ?_, ?_⟩
  · intro hno
    cases hl : getLatestForId db (some fid) with
    | none => rfl
    | some e =>
      obtain ⟨r, hr, hq, _, _⟩ := getLatestForId_some hl
      rw [sqlEqS_true_iff] at hq
      injection hq with hq
      exact absurd ⟨r, hr, hq.symm⟩ hno
  · intro e hl
    obtain ⟨r, hr, hq, hte, hmax⟩ := getLatestForId_some hl
    rw [sqlEqS_true_iff] at hq
    injection hq with hq
    refine ⟨r, hr, hq.symm, hte.symm, ?_⟩
    intro r2 h2 hf2
    exact hmax r2 h2 (by rw [sqlEqS_true_iff, hf2])
  · rintro ⟨r, hr, hf⟩
    exact getLatestForId_isSome hr (by rw [sqlEqS_true_iff, hf])

/-- Witness for claim C1 on the scenario ledger: entity `A` has a row,
and the projection returned for it is the maximal-timestamp row. -/
theorem currentState_max_timestamp_witness :
    getLatestForId exDb (some "A") = some (toEntry rowA) ∧
    ∃ r ∈ exDb, r.fileId = "A" ∧ toEntry rowA = toEntry r ∧
      ∀ r2 ∈ exDb, r2.fileId = "A" → r2.unixTime ≤ r.unixTime :=
  ⟨by decide, (currentState_max_timestamp exDb "A").2.1 (toEntry rowA) (by decide)⟩

/-- Claim C3: `getIdForPath` resolves a path iff some entity's
current-state path equals it exactly; a returned identifier's current
path always equals the query, so a historical (superseded) row never
resolves; in the moved-entity scenario only the new path `/y` resolves
and the old path `/x` does not. -/
theorem resolveEntity_current_path (db : List Row) (path : String) :
    ((∃ fid, getIdForPath db path = some fid) ↔
      (∃ fid e, getLatestForId db (some fid) = some e ∧ e.filePath = path)) ∧
    (∀ fid, getIdForPath db path = some fid →
      ∃ e, getLatestForId db (some fid) = some e ∧ e.filePath = path) ∧
    (getIdForPath movedDb "/x" = none ∧ getIdForPath movedDb "/y" = some "E") := by
  have part2 : ∀ fid, getIdForPath db path = some fid →
      ∃ e, getLatestForId db (some fid) = some e ∧ e.filePath = path := by
    intro fid h
    obtain ⟨r, hr, hfr⟩ := exists_of_findSome?_eq_some h
    cases hg : getLatestForId db (some r.fileId) with
    | none => rw [pathCheck_eq_none hg] at hfr; cases hfr
    | some d =>
      rw [pathCheck_eq_some hg] at hfr
      split at hfr
      · next hdp =>
        injection hfr with hfr
        subst hfr
        exact ⟨d, hg, hdp⟩
      · cases hfr
  refine ⟨⟨?_, ?_⟩, part2, by decide, by decide⟩
  · rintro ⟨fid, h⟩
    obtain ⟨e, he, hp⟩ := part2 fid h
    exact ⟨fid, e, he, hp⟩
  · rintro ⟨fid, e, he, hp⟩
    cases hfind : getIdForPath db path with
    | some fid2 => exact ⟨fid2, rfl⟩
    | none =>
      exfalso
      obtain ⟨r, hr, hq, hte, _⟩ := getLatestForId_some he
      rw [sqlEqS_true_iff] at hq
      injection hq with hq
      unfold getIdForPath at hfind
      have hall := (findSome?_eq_none_iff _ _).mp hfind
      have hrp : r.filePath = path := by
        rw [← hp, ← hte]
        rfl
      have hrmem : r ∈ db.filter (fun r => decide (r.filePath = path)) :=
        List.mem_filter.mpr ⟨hr, by simp [hrp]⟩
      have hnone := hall r hrmem
      rw [pathCheck_eq_some (by rw [← hq]; exact he)] at hnone
      rw [if_pos hp] at hnone
      cases hnone

/-- Witness for claim C3 on the scenario ledger: the path of folder `A`
resolves to an identifier whose current path is that same path. -/
theorem resolveEntity_current_path_witness :
    getIdForPath exDb "/d/A" = some "A" ∧
    ∃ e, getLatestForId exDb (some "A") = some e ∧ e.filePath = "/d/A" :=
  ⟨by decide, (resolveEntity_current_path exDb "/d/A").2.1 "A" (by decide)⟩

theorem keepChild_some_iff {db : List Row} {q : Option String} {fid : String}
    {e : Entry} :
    keepChild db q fid = some e ↔
      (getLatestForId db (some fid) = some e ∧ e.parentFolderId = q) := by
  constructor
  · intro h
    cases hg : getLatestForId db (some fid) with
    | none => rw [keepChild_eq_none hg] at h; cases h
    | some d =>
      rw [keepChild_eq_some hg] at h
      split at h
      · next hdp =>
        injection h with h
        subst h
        exact ⟨rfl, hdp⟩
      · cases h
  · rintro ⟨h1, h2⟩
    rw [keepChild_eq_some h1, if_pos h2]

/-- Claim C4: `getFolderContent` returns exactly the current-state
projections of the distinct identifiers that ever had parent `f` and
whose current parent still equals `f`; each identifier occurs at most
once. -/
theorem folderContents_exact (db : List Row) (f : String) :
    (∀ e, e ∈ getFolderContent db (some f) ↔
      (getLatestForId db (some e.fileId) = some e ∧
        e.parentFolderId = some f ∧
        ∃ r ∈ db, r.fileId = e.fileId ∧ r.parentFolderId = some f)) ∧
    ((getFolderContent db (some f)).map (fun e => e.fileId)).Nodup := by
  have hcand : ∀ fid : String,
      (fid ∈ dedupFirst ((db.filter
          (fun r => sqlEqO (some f) r.parentFolderId)).map (fun r => r.fileId)) ↔
        ∃ r ∈ db, r.fileId = fid ∧ r.parentFolderId = some f) := by
    intro fid
    rw [mem_dedupFirst, List.mem_map]
    constructor
    · rintro ⟨r, hr, rfl⟩
      have := List.mem_filter.mp hr
      exact ⟨r, this.1, rfl, (sqlEqO_some_iff f _).mp this.2⟩
    · rintro ⟨r, hr, hfi, hpar⟩
      exact ⟨r, List.mem_filter.mpr ⟨hr, (sqlEqO_some_iff f _).mpr hpar⟩, hfi⟩
  constructor
  · intro e
    unfold getFolderContent
    rw [List.mem_filterMap]
    constructor
    · rintro ⟨fid, hfid, hkeep⟩
      obtain ⟨hl, hpar⟩ := keepChild_some_iff.mp hkeep
      have hef : e.fileId = fid := getLatestForId_fileId hl
      subst hef
      exact ⟨hl, hpar, (hcand _).mp hfid⟩
    · rintro ⟨hl, hpar, hr⟩
      exact ⟨e.fileId, (hcand _).mpr hr, keepChild_some_iff.mpr ⟨hl, hpar⟩⟩
  · unfold getFolderContent
    have key : ∀ ids : List String, ids.Nodup →
        ((ids.filterMap (keepChild db (some f))).map (fun e => e.fileId)).Nodup := by
      intro ids
      induction ids with
      | nil => intro; simp
      | cons fid rest ih =>
        intro hnd
        obtain ⟨hni, hrest⟩ := List.nodup_cons.mp hnd
        rw [List.filterMap_cons]
        cases hg : keepChild db (some f) fid with
        | none => exact ih hrest
        | some e =>
          rw [List.map_cons]
          refine List.nodup_cons.mpr ⟨?_, ih hrest⟩
          intro hmem
          rw [List.mem_map] at hmem
          obtain ⟨e2, he2, hfe⟩ := hmem
          rw [List.mem_filterMap] at he2
          obtain ⟨fid2, hf2, hg2⟩ := he2
          have hef : e.fileId = fid :=
            getLatestForId_fileId (keepChild_some_iff.mp hg).1
          have hef2 : e2.fileId = fid2 :=
            getLatestForId_fileId (keepChild_some_iff.mp hg2).1
          rw [hef2, hef] at hfe
          subst hfe
          exact hni hf2
    exact key _ (nodup_dedupFirst _)

/-- Witness for claim C4 on the scenario ledger: the file entry under
folder `A` is in the folder contents, and the reverse direction applied
to it recovers the characterizing facts. -/
theorem folderContents_exact_witness :
    toEntry rowF ∈ getFolderContent exDb (some "A") ∧
    (getLatestForId exDb (some (toEntry rowF).fileId) = some (toEntry rowF) ∧
      (toEntry rowF).parentFolderId = some "A" ∧
      ∃ r ∈ exDb, r.fileId = (toEntry rowF).fileId ∧
        r.parentFolderId = some "A") :=
  ⟨by decide, ((folderContents_exact exDb "A").1 (toEntry rowF)).mp (by decide)⟩

/-! ### Flag updates only touch `cloudOnly` -/

theorem flagSet_fileId (ids : List Nat) (v : Nat) (r : Row) :
    (flagSet ids v r).fileId = r.fileId := by
  unfold flagSet
  split <;> rfl

theorem flagSet_unixTime (ids : List Nat) (v : Nat) (r : Row) :
    (flagSet ids v r).unixTime = r.unixTime := by
  unfold flagSet
  split <;> rfl

theorem flagSet_parentFolderId (ids : List Nat) (v : Nat) (r : Row) :
    (flagSet ids v r).parentFolderId = r.parentFolderId := by
  unfold flagSet
  split <;> rfl

theorem toEntry_flagSet (ids : List Nat) (v : Nat) (r : Row) :
    toEntry (flagSet ids v r) = toEntry r := by
  unfold flagSet
  split <;> rfl

theorem setFlags_nil (db : List Row) (v : Nat) : setFlags db [] v = db := by
  unfold setFlags
  have h : flagSet [] v = id := funext fun r => by unfold flagSet; simp
  rw [h, List.map_id]

theorem flagSet_flagSet (A B : List Nat) (v : Nat) (r : Row) :
    flagSet B v (flagSet A v r) = flagSet (A ++ B) v r := by
  unfold flagSet
  by_cases hA : r.id ∈ A <;> by_cases hB : r.id ∈ B <;>
    simp [hA, hB, List.mem_append]

theorem setFlags_setFlags (db : List Row) (A B : List Nat) (v : Nat) :
    setFlags (setFlags db A v) B v = setFlags db (A ++ B) v := by
  unfold setFlags
  rw [List.map_map]
  have h : (flagSet B v ∘ flagSet A v) = flagSet (A ++ B) v :=
    funext fun r => flagSet_flagSet A B v r
  rw [h]

theorem flagSet_override (A : List Nat) (a b : Nat) (r : Row) :
    flagSet A b (flagSet A a r) = flagSet A b r := by
  unfold flagSet
  by_cases hA : r.id ∈ A <;> simp [hA]

theorem setFlags_override (db : List Row) (A : List Nat) (a b : Nat) :
    setFlags (setFlags db A a) A b = setFlags db A b := by
  unfold setFlags
  rw [List.map_map]
  have h : (flagSet A b ∘ flagSet A a) = flagSet A b :=
    funext fun r => flagSet_override A a b r
  rw [h]

theorem update1_eq_setFlags (db : List Row) (v : Nat) (i : Nat) :
    update1 db v i = setFlags db [i] v := by
  unfold update1 setFlags
  have h : (fun r : Row => if r.id = i then { r with cloudOnly := v } else r) =
      flagSet [i] v := by
    funext r
    unfold flagSet
    by_cases hi : r.id = i <;> simp [hi]
  rw [h]

theorem applyUpdates_eq_setFlags (v : Nat) :
    ∀ (ids : List Nat) (db : List Row), applyUpdates db ids v = setFlags db ids v := by
  intro ids
  induction ids with
  | nil =>
    intro db
    rw [setFlags_nil]
    rfl
  | cons i ids ih =>
    intro db
    rw [show applyUpdates db (i :: ids) v = applyUpdates (update1 db v i) ids v
      from rfl]
    rw [ih, update1_eq_setFlags, setFlags_setFlags]
    rfl

/-! ### Queries are invariant under flag updates -/

theorem filter_map_comm (g : Row → Row) (p : Row → Bool)
    (hp : ∀ r, p (g r) = p r) :
    ∀ l : List Row, (l.map g).filter p = (l.filter p).map g := by
  intro l
  induction l with
  | nil => rfl
  | cons r rs ih =>
    rw [List.map_cons, List.filter_cons, List.filter_cons, hp r]
    cases hpr : p r with
    | false => simp [ih]
    | true => simp [ih]

theorem maxRow_map (g : Row → Row) (hT : ∀ r, (g r).unixTime = r.unixTime) :
    ∀ l : List Row, maxRow (l.map g) = (maxRow l).map g := by
  intro l
  induction l with
  | nil => rfl
  | cons r rs ih =>
    rw [List.map_cons]
    cases hm : maxRow rs with
    | none =>
      have hg : maxRow (rs.map g) = none := by rw [ih, hm]; rfl
      rw [maxRow_cons_none hm, maxRow_cons_none hg]
      rfl
    | some m =>
      have hg : maxRow (rs.map g) = some (g m) := by rw [ih, hm]; rfl
      rw [maxRow_cons_some hm, maxRow_cons_some hg, hT m, hT r]
      by_cases hc : m.unixTime > r.unixTime <;> simp [hc]

theorem getLatestForId_setFlags (db : List Row) (ids : List Nat) (v : Nat)
    (q : Option String) :
    getLatestForId (setFlags db ids v) q = getLatestForId db q := by
  unfold getLatestForId setFlags
  rw [filter_map_comm (flagSet ids v) _ (fun r => by rw [flagSet_fileId])]
  rw [maxRow_map (flagSet ids v) (flagSet_unixTime ids v)]
  cases maxRow (db.filter fun r => sqlEqS q r.fileId) with
  | none => rfl
  | some m => simp [toEntry_flagSet]

theorem keepChild_setFlags (db : List Row) (ids : List Nat) (v : Nat)
    (q : Option String) (fid : String) :
    keepChild (setFlags db ids v) q fid = keepChild db q fid := by
  unfold keepChild
  rw [getLatestForId_setFlags]

theorem getFolderContent_setFlags (db : List Row) (ids : List Nat) (v : Nat)
    (q : Option String) :
    getFolderContent (setFlags db ids v) q = getFolderContent db q := by
  unfold getFolderContent
  have h1 : ((setFlags db ids v).filter
        (fun r => sqlEqO q r.parentFolderId)).map (fun r => r.fileId) =
      (db.filter (fun r => sqlEqO q r.parentFolderId)).map (fun r => r.fileId) := by
    unfold setFlags
    rw [filter_map_comm (flagSet ids v) _ (fun r => by rw [flagSet_parentFolderId])]
    rw [List.map_map]
    have h2 : ((fun r : Row => r.fileId) ∘ flagSet ids v) =
        fun r : Row => r.fileId :=
      funext fun r => flagSet_fileId ids v r
    rw [h2]
  rw [h1]
  have h3 : keepChild (setFlags db ids v) q = keepChild db q :=
    funext fun fid => keepChild_setFlags db ids v q fid
  rw [h3]

/-! ### Unfolding equations for the fueled recursions -/

theorem markLoop_cons (rec : List Row → Option String → Nat → Option (List Row))
    (value : Nat) (db : List Row) (c : Entry) (rest : List Entry) :
    markLoop rec value db (c :: rest) =
      if c.entityType = "file" then
        match markLoop rec value db rest with
        | none => none
        | some p => some (p.1, c.id :: p.2)
      else if c.entityType = "folder" then
        match rec db (some c.fileId) value with
        | none => none
        | some db2 => markLoop rec value db2 rest
      else
        markLoop rec value db rest := rfl

theorem collectLoop_cons (rec : List Row → Option String → Option (List Nat))
    (db : List Row) (c : Entry) (rest : List Entry) :
    collectLoop rec db (c :: rest) =
      if c.entityType = "file" then
        match collectLoop rec db rest with
        | none => none
        | some p => some (p.1, c.id :: p.2)
      else if c.entityType = "folder" then
        match rec db (some c.fileId) with
        | none => none
        | some s =>
          match collectLoop rec db rest with
          | none => none
          | some p => some (s ++ p.1, p.2)
      else
        collectLoop rec db rest := rfl

theorem markContentsAs_succ (n : Nat) (db : List Row) (b : Option String)
    (v : Nat) :
    markContentsAs (n + 1) db b v =
      match getLatestForId db b with
      | none => none
      | some base =>
        match markLoop (markContentsAs n) v db (getFolderContent db b) with
        | none => none
        | some p => some (applyUpdates p.1 (base.id :: p.2) v) := rfl

theorem collectIds_succ (n : Nat) (db : List Row) (b : Option String) :
    collectIds (n + 1) db b =
      match getLatestForId db b with
      | none => none
      | some base =>
        match collectLoop (collectIds n) db (getFolderContent db b) with
        | none => none
        | some p => some (p.1 ++ base.id :: p.2) := rfl

theorem walkUp_succ (n : Nat) (db : List Row) (pid : Option String) :
    walkUp (n + 1) db pid =
      match getLatestForId db pid with
      | none => some []
      | some d =>
        match walkUp n db d.parentFolderId with
        | none => none
        | some ids => some (d.id :: ids) := rfl

/-! ### The collector is invariant under flag updates -/

theorem collectLoop_congr (rec : List Row → Option String → Option (List Nat))
    (db1 db2 : List Row) (h : ∀ b, rec db1 b = rec db2 b) :
    ∀ content : List Entry,
      collectLoop rec db1 content = collectLoop rec db2 content := by
  intro content
  induction content with
  | nil => rfl
  | cons c rest ih =>
    by_cases hf : c.entityType = "file"
    · rw [collectLoop_cons, collectLoop_cons, if_pos hf, if_pos hf, ih]
    · by_cases hd : c.entityType = "folder"
      · rw [collectLoop_cons, collectLoop_cons, if_neg hf, if_neg hf,
          if_pos hd, if_pos hd, h (some c.fileId), ih]
      · rw [collectLoop_cons, collectLoop_cons, if_neg hf, if_neg hf,
          if_neg hd, if_neg hd, ih]

theorem collectIds_setFlags (ids : List Nat) (v : Nat) :
    ∀ (fuel : Nat) (db : List Row) (b : Option String),
      collectIds fuel (setFlags db ids v) b = collectIds fuel db b := by
  intro fuel
  induction fuel with
  | zero => intro db b; rfl
  | succ n ih =>
    intro db b
    rw [collectIds_succ, collectIds_succ, getLatestForId_setFlags,
      getFolderContent_setFlags]
    cases hg : getLatestForId db b with
    | none => rfl
    | some base =>
      rw [collectLoop_congr (collectIds n) (setFlags db ids v) db
        (fun b2 => ih db b2)]

theorem walkUp_setFlags (ids : List Nat) (v : Nat) :
    ∀ (fuel : Nat) (db : List Row) (pid : Option String),
      walkUp fuel (setFlags db ids v) pid = walkUp fuel db pid := by
  intro fuel
  induction fuel with
  | zero => intro db pid; rfl
  | succ n ih =>
    intro db pid
    rw [walkUp_succ, walkUp_succ, getLatestForId_setFlags]
    cases hg : getLatestForId db pid with
    | none => rfl
    | some d =>
      show (match walkUp n (setFlags db ids v) d.parentFolderId with
          | none => none
          | some ids2 => some (d.id :: ids2)) =
        (match walkUp n db d.parentFolderId with
          | none => none
          | some ids2 => some (d.id :: ids2))
      rw [ih]

/-! ### `markContentsAs` computes `setFlags` of the collected ids -/

theorem markLoop_eq_collectLoop (n v : Nat)
    (hP : ∀ db b, markContentsAs n db b v =
      (collectIds n db b).map (fun L => setFlags db L v)) :
    ∀ (content : List Entry) (db : List Row),
      markLoop (markContentsAs n) v db content =
        (collectLoop (collectIds n) db content).map
          (fun p => (setFlags db p.1 v, p.2)) := by
  intro content
  induction content with
  | nil =>
    intro db
    show some (db, []) = some (setFlags db [] v, [])
    rw [setFlags_nil]
  | cons c rest ih =>
    intro db
    by_cases hf : c.entityType = "file"
    · rw [markLoop_cons, collectLoop_cons, if_pos hf, if_pos hf, ih db]
      cases hc : collectLoop (collectIds n) db rest with
      | none => rfl
      | some p => rfl
    · by_cases hd : c.entityType = "folder"
      · rw [markLoop_cons, collectLoop_cons, if_neg hf, if_neg hf,
          if_pos hd, if_pos hd, hP db (some c.fileId)]
        cases hs : collectIds n db (some c.fileId) with
        | none => rfl
        | some s =>
          show markLoop (markContentsAs n) v (setFlags db s v) rest = _
          rw [ih (setFlags db s v)]
          rw [collectLoop_congr (collectIds n) (setFlags db s v) db
            (fun b2 => collectIds_setFlags s v n db b2)]
          cases hc : collectLoop (collectIds n) db rest with
          | none => rfl
          | some p =>
            show some (setFlags (setFlags db s v) p.1 v, p.2) =
              some (setFlags db (s ++ p.1) v, p.2)
            rw [setFlags_setFlags]
      · rw [markLoop_cons, collectLoop_cons, if_neg hf, if_neg hf,
          if_neg hd, if_neg hd, ih db]

theorem markContentsAs_eq_collectIds :
    ∀ (fuel : Nat) (db : List Row) (b : Option String) (v : Nat),
      markContentsAs fuel db b v =
        (collectIds fuel db b).map (fun L => setFlags db L v) := by
  intro fuel
  induction fuel with
  | zero => intro db b v; rfl
  | succ n ih =>
    intro db b v
    rw [markContentsAs_succ, collectIds_succ]
    cases hg : getLatestForId db b with
    | none => rfl
    | some base =>
      rw [markLoop_eq_collectLoop n v (fun db2 b2 => ih db2 b2 v)]
      cases hc : collectLoop (collectIds n) db (getFolderContent db b) with
      | none => rfl
      | some p =>
        show some (applyUpdates (setFlags db p.1 v) (base.id :: p.2) v) =
          some (setFlags db (p.1 ++ base.id :: p.2) v)
        rw [applyUpdates_eq_setFlags, setFlags_setFlags]

/-! ### Row-wise correspondence of a flag update -/

theorem forall2_setFlags (db : List Row) (L : List Nat) (v : Nat)
    (P : Row → Row → Prop) (h : ∀ r, P r (flagSet L v r)) :
    List.Forall₂ P db (setFlags db L v) := by
  unfold setFlags
  induction db with
  | nil => exact List.Forall₂.nil
  | cons r rs ih => exact List.Forall₂.cons (h r) ih

theorem forall2_refl_rows (db : List Row) (P : Row → Row → Prop)
    (h : ∀ r, P r r) : List.Forall₂ P db db := by
  induction db with
  | nil => exact List.Forall₂.nil
  | cons r rs ih => exact List.Forall₂.cons (h r) ih

/-! ### Evaluation of `performLocal` in terms of the collector and walker -/

theorem markContentsAs_eq_none {fuel : Nat} {db : List Row} {b : Option String}
    {v : Nat} (hS : collectIds fuel db b = none) :
    markContentsAs fuel db b v = none := by
  rw [markContentsAs_eq_collectIds, hS]
  rfl

theorem markContentsAs_eq_some {fuel : Nat} {db : List Row} {b : Option String}
    {v : Nat} {S : List Nat} (hS : collectIds fuel db b = some S) :
    markContentsAs fuel db b v = some (setFlags db S v) := by
  rw [markContentsAs_eq_collectIds, hS]
  rfl

theorem performLocal_eq_none1 {fuel : Nat} {db : List Row} {b : Option String}
    (hS : collectIds fuel db b = none) : performLocal fuel db b = none := by
  unfold performLocal
  rw [markContentsAs_eq_none hS]

theorem performLocal_eq_none2 {fuel : Nat} {db : List Row} {b : Option String}
    {S : List Nat} (hS : collectIds fuel db b = some S)
    (hb : getLatestForId db b = none) : performLocal fuel db b = none := by
  unfold performLocal
  rw [markContentsAs_eq_some hS]
  show (match getLatestForId (setFlags db S 0) b with
      | none => none
      | some base =>
        match walkUp fuel (setFlags db S 0) base.parentFolderId with
        | none => none
        | some ids => some (applyUpdates (setFlags db S 0) ids 0)) = none
  rw [getLatestForId_setFlags, hb]

theorem performLocal_eq_none3 {fuel : Nat} {db : List Row} {b : Option String}
    {S : List Nat} {base : Entry} (hS : collectIds fuel db b = some S)
    (hb : getLatestForId db b = some base)
    (hA : walkUp fuel db base.parentFolderId = none) :
    performLocal fuel db b = none := by
  unfold performLocal
  rw [markContentsAs_eq_some hS]
  show (match getLatestForId (setFlags db S 0) b with
      | none => none
      | some base =>
        match walkUp fuel (setFlags db S 0) base.parentFolderId with
        | none => none
        | some ids => some (applyUpdates (setFlags db S 0) ids 0)) = none
  rw [getLatestForId_setFlags, hb]
  show (match walkUp fuel (setFlags db S 0) base.parentFolderId with
      | none => none
      | some ids => some (applyUpdates (setFlags db S 0) ids 0)) = none
  rw [walkUp_setFlags, hA]

theorem performLocal_eq_some {fuel : Nat} {db : List Row} {b : Option String}
    {S A : List Nat} {base : Entry} (hS : collectIds fuel db b = some S)
    (hb : getLatestForId db b = some base)
    (hA : walkUp fuel db base.parentFolderId = some A) :
    performLocal fuel db b = some (setFlags db (S ++ A) 0) := by
  unfold performLocal
  rw [markContentsAs_eq_some hS]
  show (match getLatestForId (setFlags db S 0) b with
      | none => none
      | some base =>
        match walkUp fuel (setFlags db S 0) base.parentFolderId with
        | none => none
        | some ids => some (applyUpdates (setFlags db S 0) ids 0)) = _
  rw [getLatestForId_setFlags, hb]
  show (match walkUp fuel (setFlags db S 0) base.parentFolderId with
      | none => none
      | some ids => some (applyUpdates (setFlags db S 0) ids 0)) = _
  rw [walkUp_setFlags, hA]
  show some (applyUpdates (setFlags db S 0) A 0) = _
  rw [applyUpdates_eq_setFlags, setFlags_setFlags]

theorem performLocal_shape {fuel : Nat} {db db2 : List Row} {b : Option String}
    (h : performLocal fuel db b = some db2) :
    ∃ S base A, collectIds fuel db b = some S ∧
      getLatestForId db b = some base ∧
      walkUp fuel db base.parentFolderId = some A ∧
      db2 = setFlags db (S ++ A) 0 := by
  cases hS : collectIds fuel db b with
  | none => rw [performLocal_eq_none1 hS] at h; cases h
  | some S =>
    cases hb : getLatestForId db b with
    | none => rw [performLocal_eq_none2 hS hb] at h; cases h
    | some base =>
      cases hA : walkUp fuel db base.parentFolderId with
      | none => rw [performLocal_eq_none3 hS hb hA] at h; cases h
      | some A =>
        rw [performLocal_eq_some hS hb hA] at h
        injection h with h
        exact ⟨S, base, A, rfl, rfl, hA, h.symm⟩

theorem flagSet_rid (ids : List Nat) (v : Nat) (r : Row) :
    (flagSet ids v r).id = r.id := by
  unfold flagSet
  split <;> rfl

theorem flagSet_entityType (ids : List Nat) (v : Nat) (r : Row) :
    (flagSet ids v r).entityType = r.entityType := by
  unfold flagSet
  split <;> rfl

theorem flagSet_fileName (ids : List Nat) (v : Nat) (r : Row) :
    (flagSet ids v r).fileName = r.fileName := by
  unfold flagSet
  split <;> rfl

theorem flagSet_filePath (ids : List Nat) (v : Nat) (r : Row) :
    (flagSet ids v r).filePath = r.filePath := by
  unfold flagSet
  split <;> rfl

theorem walkUp_succ_none {n : Nat} {db : List Row} {pid : Option String}
    (hg : getLatestForId db pid = none) : walkUp (n + 1) db pid = some [] := by
  rw [walkUp_succ, hg]

theorem walkUp_succ_some {n : Nat} {db : List Row} {pid : Option String}
    {d : Entry} (hg : getLatestForId db pid = some d) :
    walkUp (n + 1) db pid =
      match walkUp n db d.parentFolderId with
      | none => none
      | some ids => some (d.id :: ids) := by
  rw [walkUp_succ, hg]

/-- Every row id collected by the ancestor walk is the current-state row
id of some entity. -/
theorem walkUp_ids :
    ∀ (fuel : Nat) (db : List Row) (pid : Option String) (ids : List Nat),
      walkUp fuel db pid = some ids →
      ∀ a ∈ ids, ∃ p e, getLatestForId db (some p) = some e ∧ e.id = a := by
  intro fuel
  induction fuel with
  | zero => intro db pid ids h; cases h
  | succ n ih =>
    intro db pid ids h
    cases hg : getLatestForId db pid with
    | none =>
      rw [walkUp_succ_none hg] at h
      injection h with h
      subst h
      simp
    | some d =>
      rw [walkUp_succ_some hg] at h
      cases hw : walkUp n db d.parentFolderId with
      | none => rw [hw] at h; cases h
      | some rest =>
        rw [hw] at h
        injection h with h
        subst h
        intro a ha
        rcases List.mem_cons.mp ha with rfl | ha2
        · cases pid with
          | none => rw [getLatestForId_none_q] at hg; cases hg
          | some p => exact ⟨p, d, hg, rfl⟩
        · exact ih db d.parentFolderId rest hw a ha2

/-- Claim C7: applying `markSubtree(f, true)` (that is, `markContentsAs`
with flag value 1) twice in succession yields exactly the ledger produced
by applying it once. -/
theorem markSubtree_idempotent (fuel : Nat) (db db1 : List Row) (f : String)
    (h : markContentsAs fuel db (some f) 1 = some db1) :
    markContentsAs fuel db1 (some f) 1 = some db1 := by
  cases hS : collectIds fuel db (some f) with
  | none => rw [markContentsAs_eq_none hS] at h; cases h
  | some S =>
    have e := (markContentsAs_eq_some hS).symm.trans h
    injection e with e
    subst e
    have hS2 : collectIds fuel (setFlags db S 1) (some f) = some S := by
      rw [collectIds_setFlags]
      exact hS
    rw [markContentsAs_eq_some hS2, setFlags_override]

/-- Witness for claim C7: on the scenario ledger, `cloud` on folder `A`
produces `exDbC`, and running it again returns `exDbC` unchanged. -/
theorem markSubtree_idempotent_witness :
    markContentsAs 10 exDb (some "A") 1 = some exDbC ∧
    markContentsAs 10 exDbC (some "A") 1 = some exDbC :=
  ⟨by decide, markSubtree_idempotent 10 exDb exDbC "A" (by decide)⟩

/-- Claim C6: `markSubtree(f, true)` followed by `markSubtree(f, false)`
leaves every row whose id the traversal collects with `cloudOnly = 0`,
and leaves every other row exactly as it was before the pair of calls. -/
theorem markSubtree_roundtrip (fuel : Nat) (db db1 db2 : List Row) (f : String)
    (h1 : markContentsAs fuel db (some f) 1 = some db1)
    (h2 : markContentsAs fuel db1 (some f) 0 = some db2) :
    ∃ S, collectIds fuel db (some f) = some S ∧
      List.Forall₂ (fun r r2 => (r.id ∈ S → r2.cloudOnly = 0) ∧
        (r.id ∉ S → r2 = r)) db db2 := by
  cases hS : collectIds fuel db (some f) with
  | none => rw [markContentsAs_eq_none hS] at h1; cases h1
  | some S =>
    have e1 := (markContentsAs_eq_some hS).symm.trans h1
    injection e1 with e1
    subst e1
    have hS2 : collectIds fuel (setFlags db S 1) (some f) = some S := by
      rw [collectIds_setFlags]
      exact hS
    have e2 := (markContentsAs_eq_some hS2).symm.trans h2
    injection e2 with e2
    rw [setFlags_override] at e2
    subst e2
    refine ⟨S, rfl, ?_⟩
    apply forall2_setFlags db S 0
    intro r
    constructor
    · intro hin
      unfold flagSet
      rw [if_pos hin]
    · intro hnin
      unfold flagSet
      rw [if_neg hnin]

/-- Witness for claim C6: the round trip on the scenario ledger starting
from `exDb` goes to `exDbC` and back to `exDb`. -/
theorem markSubtree_roundtrip_witness :
    markContentsAs 10 exDb (some "A") 1 = some exDbC ∧
    markContentsAs 10 exDbC (some "A") 0 = some exDb ∧
    ∃ S, collectIds 10 exDb (some "A") = some S ∧
      List.Forall₂ (fun r r2 => (r.id ∈ S → r2.cloudOnly = 0) ∧
        (r.id ∉ S → r2 = r)) exDb exDb :=
  ⟨by decide, by decide,
    markSubtree_roundtrip 10 exDb exDbC exDb "A" (by decide) (by decide)⟩

/-- Claim C5: after a successful `local(f)`, the subtree-collected rows
and every ancestor's current row (the ids the walk from `f`'s current
parent collects until `currentState` finds no row) have `cloudOnly = 0`,
every id on the walk is the current row id of some entity, and all other
rows are completely untouched. -/
theorem local_ancestor_closure (fuel : Nat) (db db2 : List Row) (f : String)
    (h : performLocal fuel db (some f) = some db2) :
    ∃ S base A, collectIds fuel db (some f) = some S ∧
      getLatestForId db (some f) = some base ∧
      walkUp fuel db base.parentFolderId = some A ∧
      (∀ a ∈ A, ∃ p e, getLatestForId db (some p) = some e ∧ e.id = a) ∧
      List.Forall₂ (fun r r2 =>
        ((r.id ∈ S ∨ r.id ∈ A) → r2.cloudOnly = 0) ∧
        ((r.id ∉ S ∧ r.id ∉ A) → r2 = r)) db db2 := by
  obtain ⟨S, base, A, hS, hb, hA, hdb2⟩ := performLocal_shape h
  subst hdb2
  refine ⟨S, base, A, hS, hb, hA,
    walkUp_ids fuel db base.parentFolderId A hA, ?_⟩
  apply forall2_setFlags db (S ++ A) 0
  intro r
  constructor
  · intro hin
    unfold flagSet
    rw [if_pos (List.mem_append.mpr hin)]
  · intro hnin
    have hout : r.id ∉ S ++ A := by
      rw [List.mem_append]
      rintro (hmem | hmem)
      · exact hnin.1 hmem
      · exact hnin.2 hmem
    unfold flagSet
    rw [if_neg hout]

/-- Witness for claim C5: `local` on folder `A` of the all-flags-set
scenario ledger clears rows 1, 2, 3 and the root row (id 4), giving
`exDb`. -/
theorem local_ancestor_closure_witness :
    performLocal 10 exDb1 (some "A") = some exDb ∧
    ∃ S base A, collectIds 10 exDb1 (some "A") = some S ∧
      getLatestForId exDb1 (some "A") = some base ∧
      walkUp 10 exDb1 base.parentFolderId = some A ∧
      (∀ a ∈ A, ∃ p e, getLatestForId exDb1 (some p) = some e ∧ e.id = a) ∧
      List.Forall₂ (fun r r2 =>
        ((r.id ∈ S ∨ r.id ∈ A) → r2.cloudOnly = 0) ∧
        ((r.id ∉ S ∧ r.id ∉ A) → r2 = r)) exDb1 exDb :=
  ⟨by decide, local_ancestor_closure 10 exDb1 exDb "A" (by decide)⟩

theorem runAction_ls (fuel : Nat) (db : List Row) (path : String) :
    runAction fuel db "ls" path =
      some (performLs db (getIdForPath db path), db) := by
  unfold runAction
  rw [if_pos rfl]

theorem runAction_cloud (fuel : Nat) (db : List Row) (path : String) :
    runAction fuel db "cloud" path =
      (performCloud fuel db (getIdForPath db path)).map (fun db2 => ([], db2)) := by
  unfold runAction
  rw [if_neg (by decide), if_pos rfl]

theorem runAction_local (fuel : Nat) (db : List Row) (path : String) :
    runAction fuel db "local" path =
      (performLocal fuel db (getIdForPath db path)).map (fun db2 => ([], db2)) := by
  unfold runAction
  rw [if_neg (by decide), if_neg (by decide), if_pos rfl]

/-- Claim C8: every completed run (ls, cloud or local) keeps exactly the
same rows in the same positions — nothing inserted or deleted — and
changes no field other than `cloudOnly`. -/
theorem ops_frame (fuel : Nat) (db : List Row) (action path : String)
    (out : List String) (db2 : List Row)
    (h : runAction fuel db action path = some (out, db2)) :
    db2.length = db.length ∧
    List.Forall₂ (fun r r2 => r2.id = r.id ∧ r2.unixTime = r.unixTime ∧
      r2.entityType = r.entityType ∧ r2.fileId = r.fileId ∧
      r2.fileName = r.fileName ∧ r2.filePath = r.filePath ∧
      r2.parentFolderId = r.parentFolderId) db db2 := by
  have frame_setFlags : ∀ (L : List Nat) (v : Nat),
      (setFlags db L v).length = db.length ∧
      List.Forall₂ (fun r r2 => r2.id = r.id ∧ r2.unixTime = r.unixTime ∧
        r2.entityType = r.entityType ∧ r2.fileId = r.fileId ∧
        r2.fileName = r.fileName ∧ r2.filePath = r.filePath ∧
        r2.parentFolderId = r.parentFolderId) db (setFlags db L v) := by
    intro L v
    constructor
    · unfold setFlags
      rw [List.length_map]
    · apply forall2_setFlags
      intro r
      exact ⟨flagSet_rid L v r, flagSet_unixTime L v r, flagSet_entityType L v r,
        flagSet_fileId L v r, flagSet_fileName L v r, flagSet_filePath L v r,
        flagSet_parentFolderId L v r⟩
  by_cases h1 : action = "ls"
  · subst h1
    rw [runAction_ls] at h
    injection h with h
    rw [Prod.mk.injEq] at h
    obtain ⟨-, hdb⟩ := h
    subst hdb
    exact ⟨rfl, forall2_refl_rows db _ (fun r => ⟨rfl, rfl, rfl, rfl, rfl, rfl, rfl⟩)⟩
  · by_cases h2 : action = "cloud"
    · subst h2
      rw [runAction_cloud] at h
      cases hc : performCloud fuel db (getIdForPath db path) with
      | none => rw [hc] at h; cases h
      | some dbx =>
        rw [hc] at h
        injection h with h
        rw [Prod.mk.injEq] at h
        obtain ⟨-, hdb⟩ := h
        subst hdb
        unfold performCloud at hc
        cases hS : collectIds fuel db (getIdForPath db path) with
        | none => rw [markContentsAs_eq_none hS] at hc; cases hc
        | some S =>
          have e := (markContentsAs_eq_some hS).symm.trans hc
          injection e with e
          subst e
          exact frame_setFlags S 1
    · by_cases h3 : action = "local"
      · subst h3
        rw [runAction_local] at h
        cases hc : performLocal fuel db (getIdForPath db path) with
        | none => rw [hc] at h; cases h
        | some dbx =>
          rw [hc] at h
          injection h with h
          rw [Prod.mk.injEq] at h
          obtain ⟨-, hdb⟩ := h
          subst hdb
          obtain ⟨S, base, A, -, -, -, hshape⟩ := performLocal_shape hc
          subst hshape
          exact frame_setFlags (S ++ A) 0
      · unfold runAction at h
        rw [if_neg h1, if_neg h2, if_neg h3] at h
        cases h

/-- Witness for claim C8: a completed `cloud` run on the scenario ledger
preserves every field except `cloudOnly` of every row. -/
theorem ops_frame_witness :
    runAction 10 exDb "cloud" "/d/A" = some ([], exDbC) ∧
    (exDbC.length = exDb.length ∧
      List.Forall₂ (fun r r2 => r2.id = r.id ∧ r2.unixTime = r.unixTime ∧
        r2.entityType = r.entityType ∧ r2.fileId = r.fileId ∧
        r2.fileName = r.fileName ∧ r2.filePath = r.filePath ∧
        r2.parentFolderId = r.parentFolderId) exDb exDbC) :=
  ⟨by decide, ops_frame 10 exDb "cloud" "/d/A" [] exDbC (by decide)⟩

theorem sqlEqO_none (v : Option String) : sqlEqO none v = false := by
  cases v <;> rfl

/-- Counterexample to claim C2 as stated: on the scenario ledger the path
`/nope` resolves to no entity, yet the `ls` action does not fail at all —
it terminates normally with empty output and the ledger unchanged (the
dispatch never checks the resolver's result). -/
theorem unresolved_path_not_fatal_cex :
    getIdForPath exDb "/nope" = none ∧
    runAction 10 exDb "ls" "/nope" = some ([], exDb) := by
  exact ⟨by decide, by decide⟩

/-- Amended claim C2: for a path with no matching current entity, `ls`
completes normally, printing nothing and mutating nothing, while `cloud`
and `local` terminate abnormally (an uncaught `TypeError` from
subscripting `None`, which does not name the path) before committing, so
no row of the ledger is mutated by any of the three actions. -/
theorem unresolved_path_behavior (fuel : Nat) (db : List Row) (path : String)
    (h : getIdForPath db path = none) :
    runAction fuel db "ls" path = some ([], db) ∧
    runAction fuel db "cloud" path = none ∧
    runAction fuel db "local" path = none := by
  have hmark : ∀ v : Nat, markContentsAs fuel db none v = none := by
    intro v
    cases fuel with
    | zero => rfl
    | succ n => rw [markContentsAs_succ, getLatestForId_none_q]
  refine ⟨?_, ?_, ?_⟩
  · rw [runAction_ls, h]
    have hgfc : getFolderContent db none = [] := by
      unfold getFolderContent
      have hfil : db.filter (fun r => sqlEqO none r.parentFolderId) = [] := by
        induction db with
        | nil => rfl
        | cons r rs ih => simp [sqlEqO_none, ih]
      rw [hfil]
      rfl
    have hls : performLs db none = [] := by
      simp only [performLs, hgfc]
      rfl
    rw [hls]
  · rw [runAction_cloud, h]
    unfold performCloud
    rw [hmark 1]
    rfl
  · rw [runAction_local, h]
    have hloc : performLocal fuel db none = none := by
      unfold performLocal
      rw [hmark 0]
    rw [hloc]
    rfl

/-- Witness for the amended claim C2 at the unresolvable path `/nope` of
the scenario ledger. -/
theorem unresolved_path_behavior_witness :
    runAction 10 exDb "ls" "/nope" = some ([], exDb) ∧
    runAction 10 exDb "cloud" "/nope" = none ∧
    runAction 10 exDb "local" "/nope" = none :=
  unresolved_path_behavior 10 exDb "/nope" (by decide)

/-- Claim C9: the `ls` output is a folders-first partition of the live
children by `entityType`: a lexicographically sorted permutation of the
folder names, each with a trailing path separator, followed by a
lexicographically sorted permutation of the file names; on the scenario
ledger, `ls` of folder `A` prints `B/` then `file.txt`.  (`performLs` is
pure: it returns the printed lines and does not touch the ledger.) -/
theorem ls_sorted_partition (db : List Row) (b : Option String) :
    (∃ fo fi : List String,
      performLs db b = fo.map (fun s => s ++ "/") ++ fi ∧
      List.Sorted (fun a b : String => a ≤ b) fo ∧
      List.Sorted (fun a b : String => a ≤ b) fi ∧
      fo.Perm (((getFolderContent db b).filter
        (fun c => decide (c.entityType = "folder"))).map (fun c => c.fileName)) ∧
      fi.Perm (((getFolderContent db b).filter
        (fun c => decide (c.entityType = "file"))).map (fun c => c.fileName))) ∧
    performLs exDb (some "A") = ["B/", "file.txt"] := by
  constructor
  · refine ⟨sortStrings (((getFolderContent db b).filter
        (fun c => decide (c.entityType = "folder"))).map (fun c => c.fileName)),
      sortStrings (((getFolderContent db b).filter
        (fun c => decide (c.entityType = "file"))).map (fun c => c.fileName)),
      ?_, ?_, ?_, ?_, ?_⟩
    · rfl
    · exact List.sorted_insertionSort _ _
    · exact List.sorted_insertionSort _ _
    · exact List.perm_insertionSort _ _
    · exact List.perm_insertionSort _ _
  · decide

/-- Claim C10: a current-state child whose `entityType` is neither
`file` nor `folder` is skipped by the subtree traversal loop (filtering
such children out of the content list does not change `markLoop` at all,
so neither its row id is collected nor is it recursed into), and on a
concrete ledger with a `symlink` child: the child is a live member of the
folder contents, `ls` silently omits it, and `cloud` leaves its
`cloudOnly` flag unchanged while marking the folder and file rows. -/
theorem unknown_entityType_skipped :
    (∀ (rec : List Row → Option String → Nat → Option (List Row)) (v : Nat)
      (content : List Entry) (db : List Row),
      markLoop rec v db content =
        markLoop rec v db (content.filter (fun c =>
          decide (c.entityType = "file") || decide (c.entityType = "folder")))) ∧
    toEntry rowW ∈ getFolderContent exW (some "P") ∧
    rowW.entityType = "symlink" ∧
    performLs exW (some "P") = ["a.txt"] ∧
    markContentsAs 10 exW (some "P") 1 = some exW2 := by
  refine ⟨?_, by decide, by decide, by decide, by decide⟩
  intro rec v content
  induction content with
  | nil => intro db; rfl
  | cons c rest ih =>
    intro db
    by_cases hf : c.entityType = "file"
    · rw [show (c :: rest).filter (fun c =>
          decide (c.entityType = "file") || decide (c.entityType = "folder")) =
          c :: rest.filter (fun c =>
            decide (c.entityType = "file") || decide (c.entityType = "folder"))
        from by simp [List.filter_cons, hf]]
      rw [markLoop_cons, markLoop_cons, if_pos hf, if_pos hf, ih db]
    · by_cases hd : c.entityType = "folder"
      · rw [show (c :: rest).filter (fun c =>
            decide (c.entityType = "file") || decide (c.entityType = "folder")) =
            c :: rest.filter (fun c =>
              decide (c.entityType = "file") || decide (c.entityType = "folder"))
          from by simp [List.filter_cons, hd]]
        rw [markLoop_cons, markLoop_cons, if_neg hf, if_neg hf,
          if_pos hd, if_pos hd]
        cases hr : rec db (some c.fileId) v with
        | none => rfl
        | some db2 => exact ih db2
      · rw [show (c :: rest).filter (fun c =>
            decide (c.entityType = "file") || decide (c.entityType = "folder")) =
            rest.filter (fun c =>
              decide (c.entityType = "file") || decide (c.entityType = "folder"))
          from by simp [List.filter_cons, hf, hd]]
        rw [markLoop_cons, if_neg hf, if_neg hd]
        exact ih db

/-- Counterexample to claim C1's tie-break conjunct: entity `T` has two
rows tied on the maximal timestamp, and two ledgers holding exactly the
same rows (a permutation of each other) make `getLatestForId` return
different rows — the choice on a tie tracks the storage enumeration
order (`ORDER BY unixTime DESC LIMIT 1` has no secondary sort key), so
the result is not fixed by any deterministic, documented tie-break on
the rows themselves. -/
theorem tiebreak_storage_order_cex :
    List.Perm tieDb tieDbRev ∧
    rowT1.unixTime = rowT2.unixTime ∧
    getLatestForId tieDb (some "T") = some (toEntry rowT1) ∧
    getLatestForId tieDbRev (some "T") = some (toEntry rowT2) ∧
    decide (toEntry rowT1 = toEntry rowT2) = false := by
  refine ⟨?_, by decide, by decide, by decide, by decide⟩
  exact List.Perm.swap rowT2 rowT1 []
